import Mathlib

/-!
Verification of the CID minirhizotron horizontal-depth cross-section
processor (src/minirhizotron_processor_CID.py) against its specification.
Python floating-point arithmetic is idealised over exact fields: rationals
for calibration and depth-level bookkeeping, reals for trigonometry.
-/

namespace CID

/-- Model of numpy.arange(start, stop, step) for a positive step: the list
of values start + i*step for 0 ≤ i < ceil((stop - start)/step), exactly
numpy's element count for a positive step. -/
def arange (start stop step : ℚ) : List ℚ :=
  (List.range (Int.ceil ((stop - start) / step)).toNat).map
    (fun (i : ℕ) => start + (i : ℚ) * step)

/-- Depth-level generation from map_soil_depths_to_image (source lines
190-192): depth_levels = np.arange(0, max_depth_cm + 1, depth_interval_cm),
and if depth_levels[-1] < max_depth_cm then max_depth_cm is appended.
Python's nonempty-array indexing depth_levels[-1] is modelled with
getLast? (the array is nonempty for the positive parameters in use). -/
def depth_levels (max_depth_cm depth_interval_cm : ℚ) : List ℚ :=
  let l := arange 0 (max_depth_cm + 1) depth_interval_cm
  if (l.getLast?).getD 0 < max_depth_cm then l ++ [max_depth_cm] else l

/-- Band tags of the extraction loop (source lines 239-272): for each
i in range(len(depth_levels) - 1) one band is produced, tagged with
(start_depth, end_depth) = (depth_levels[i], depth_levels[i+1]). -/
def extracted_sections (levels : List ℚ) : List (ℚ × ℚ) :=
  (List.range (levels.length - 1)).map
    (fun i => (levels.getD i 0, levels.getD (i + 1) 0))

lemma arange_length (start stop step : ℚ) :
    (arange start stop step).length = (Int.ceil ((stop - start) / step)).toNat := by
  simp [arange]

lemma arange_getD (start stop step : ℚ) (i : ℕ)
    (hi : i < (Int.ceil ((stop - start) / step)).toNat) :
    (arange start stop step).getD i 0 = start + (i : ℚ) * step := by
  unfold arange
  rw [List.getD_eq_getElem?_getD, List.getElem?_map, List.getElem?_range hi]
  rfl

lemma range_map_getLast {α : Type} (f : ℕ → α) (n : ℕ) (hn : 0 < n) (d : α) :
    (((List.range n).map f).getLast?).getD d = f (n - 1) := by
  obtain ⟨m, rfl⟩ : ∃ m, n = m + 1 := ⟨n - 1, by omega⟩
  rw [List.range_succ, List.map_append]
  simp

lemma arange_getLast (start stop step : ℚ)
    (hn : 0 < (Int.ceil ((stop - start) / step)).toNat) :
    ((arange start stop step).getLast?).getD 0 =
      start + (((Int.ceil ((stop - start) / step)).toNat - 1 : ℕ) : ℚ) * step := by
  unfold arange
  rw [range_map_getLast _ _ hn]

/-- Bounds for the ceiling-based element count of arange at a positive
argument. -/
lemma ceil_toNat_bounds (x : ℚ) (hx : 0 < x) :
    1 ≤ (Int.ceil x).toNat ∧
      (((Int.ceil x).toNat : ℚ) - 1) < x ∧ x ≤ ((Int.ceil x).toNat : ℚ) := by
  have h1 : (1 : ℤ) ≤ Int.ceil x := Int.ceil_pos.mpr hx
  have h2 : ((Int.ceil x).toNat : ℤ) = Int.ceil x := Int.toNat_of_nonneg (by omega)
  have hcast : ((Int.ceil x).toNat : ℚ) = ((Int.ceil x : ℤ) : ℚ) := by
    exact_mod_cast congrArg (fun z : ℤ => (z : ℚ)) h2
  refine ⟨by omega, ?_, ?_⟩
  · have h3 : ((Int.ceil x : ℤ) : ℚ) < x + 1 := Int.ceil_lt_add_one x
    rw [hcast]; linarith
  · have h4 : x ≤ ((Int.ceil x : ℤ) : ℚ) := Int.le_ceil x
    rw [hcast]; exact h4

/-- Element count of the arange call inside depth_levels. -/
def dlN (maxd step : ℚ) : ℕ := (Int.ceil ((maxd + 1 - 0) / step)).toNat

lemma arange_dl_length (maxd step : ℚ) :
    (arange 0 (maxd + 1) step).length = dlN maxd step := by
  rw [arange_length]; rfl

lemma dlN_pos (maxd step : ℚ) (hs : 0 < step) (hm : 0 < maxd) :
    0 < dlN maxd step := by
  have hx : 0 < (maxd + 1 - 0) / step := div_pos (by linarith) hs
  have h := (ceil_toNat_bounds _ hx).1
  unfold dlN
  omega

lemma dlN_last_lt (maxd step : ℚ) (hs : 0 < step) (hm : 0 < maxd) :
    ((dlN maxd step - 1 : ℕ) : ℚ) * step < maxd + 1 := by
  have hx : 0 < (maxd + 1 - 0) / step := div_pos (by linarith) hs
  have h := (ceil_toNat_bounds _ hx).2.1
  have hp := dlN_pos maxd step hs hm
  have hcast : ((dlN maxd step - 1 : ℕ) : ℚ) = (dlN maxd step : ℚ) - 1 := by
    push_cast [Nat.cast_sub hp]
    ring
  rw [hcast]
  have h2 : ((dlN maxd step : ℚ) - 1) < (maxd + 1 - 0) / step := h
  have := (lt_div_iff₀ hs).mp h2
  linarith

lemma dlN_stop_le (maxd step : ℚ) (hs : 0 < step) (hm : 0 < maxd) :
    maxd + 1 ≤ (dlN maxd step : ℚ) * step := by
  have hx : 0 < (maxd + 1 - 0) / step := div_pos (by linarith) hs
  have h := (ceil_toNat_bounds _ hx).2.2
  have := (div_le_iff₀ hs).mp h
  unfold dlN
  linarith

lemma dl_arange_last (maxd step : ℚ) (hs : 0 < step) (hm : 0 < maxd) :
    ((arange 0 (maxd + 1) step).getLast?).getD 0 =
      ((dlN maxd step - 1 : ℕ) : ℚ) * step := by
  have h := arange_getLast 0 (maxd + 1) step (dlN_pos maxd step hs hm)
  rw [h, zero_add]
  rfl

lemma arange_head (start stop step : ℚ)
    (hn : 0 < (Int.ceil ((stop - start) / step)).toNat) :
    (arange start stop step).head? = some start := by
  unfold arange
  obtain ⟨m, hm2⟩ : ∃ m, (Int.ceil ((stop - start) / step)).toNat = m + 1 :=
    ⟨(Int.ceil ((stop - start) / step)).toNat - 1, by omega⟩
  rw [hm2, List.range_succ_eq_map, List.map_cons]
  simp

/-- The two possible shapes of depth_levels: with max_depth_cm appended
(when the arange fell short) or the raw arange (when it reached or
overshot max_depth_cm). -/
lemma dl_split (maxd step : ℚ) (hs : 0 < step) (hm : 0 < maxd) :
    (depth_levels maxd step = arange 0 (maxd + 1) step ++ [maxd] ∧
      ((dlN maxd step - 1 : ℕ) : ℚ) * step < maxd) ∨
    (depth_levels maxd step = arange 0 (maxd + 1) step ∧
      maxd ≤ ((dlN maxd step - 1 : ℕ) : ℚ) * step) := by
  have hlast := dl_arange_last maxd step hs hm
  by_cases hc : ((dlN maxd step - 1 : ℕ) : ℚ) * step < maxd
  · left
    refine ⟨?_, hc⟩
    simp only [depth_levels, hlast, if_pos hc]
  · right
    refine ⟨?_, not_lt.mp hc⟩
    simp only [depth_levels, hlast, if_neg hc]

lemma dl_head (maxd step : ℚ) (hs : 0 < step) (hm : 0 < maxd) :
    (depth_levels maxd step).head? = some 0 := by
  have hh := arange_head 0 (maxd + 1) step (dlN_pos maxd step hs hm)
  rcases dl_split maxd step hs hm with ⟨he, _⟩ | ⟨he, _⟩
  · rw [he]
    cases hA : arange 0 (maxd + 1) step with
    | nil => rw [hA] at hh; simp at hh
    | cons a t =>
      rw [hA] at hh
      simp at hh
      simp [hh]
  · rw [he, hh]

lemma dl_length (maxd step : ℚ) (hs : 0 < step) (hm : 0 < maxd) :
    2 ≤ (depth_levels maxd step).length := by
  have hp := dlN_pos maxd step hs hm
  rcases dl_split maxd step hs hm with ⟨he, _⟩ | ⟨he, hge⟩
  · rw [he, List.length_append, arange_dl_length]
    simp
    omega
  · rw [he, arange_dl_length]
    by_contra hlt2
    have hN : dlN maxd step = 1 := by omega
    rw [hN] at hge
    norm_num at hge
    linarith

lemma dl_last_ge (maxd step : ℚ) (hs : 0 < step) (hm : 0 < maxd) :
    maxd ≤ ((depth_levels maxd step).getLast?).getD 0 := by
  rcases dl_split maxd step hs hm with ⟨he, _⟩ | ⟨he, hge⟩
  · rw [he, List.getLast?_concat]
    simp
  · rw [he, dl_arange_last maxd step hs hm]
    exact hge

lemma dl_last_eq (maxd step : ℚ) (hs : 0 < step) (hm : 0 < maxd)
    (H : ∀ k : ℕ, (k : ℚ) * step ≤ maxd ∨ maxd + 1 ≤ (k : ℚ) * step) :
    ((depth_levels maxd step).getLast?).getD 0 = maxd := by
  rcases dl_split maxd step hs hm with ⟨he, _⟩ | ⟨he, hge⟩
  · rw [he, List.getLast?_concat]
    rfl
  · rw [he, dl_arange_last maxd step hs hm]
    rcases H (dlN maxd step - 1) with h | h
    · exact le_antisymm h hge
    · exfalso
      have := dlN_last_lt maxd step hs hm
      linarith

lemma dl_getD (maxd step : ℚ) (hs : 0 < step) (hm : 0 < maxd) (i : ℕ)
    (hi : i + 1 < (depth_levels maxd step).length) :
    (depth_levels maxd step).getD i 0 = (i : ℚ) * step := by
  rcases dl_split maxd step hs hm with ⟨he, _⟩ | ⟨he, _⟩
  · rw [he] at hi ⊢
    rw [List.length_append] at hi
    have hil : i < (arange 0 (maxd + 1) step).length := by
      simp at hi
      omega
    rw [List.getD_append _ _ _ _ hil]
    have hil2 : i < (Int.ceil ((maxd + 1 - 0) / step)).toNat := by
      rw [arange_dl_length] at hil
      exact hil
    rw [arange_getD _ _ _ _ hil2, zero_add]
  · rw [he] at hi ⊢
    have hil2 : i < (Int.ceil ((maxd + 1 - 0) / step)).toNat := by
      rw [arange_dl_length] at hi
      unfold dlN at hi
      omega
    rw [arange_getD _ _ _ _ hil2, zero_add]

lemma dl_adj (maxd step : ℚ) (hs : 0 < step) (hm : 0 < maxd) (i : ℕ)
    (hi : i + 1 < (depth_levels maxd step).length) :
    (depth_levels maxd step).getD i 0 < (depth_levels maxd step).getD (i + 1) 0 := by
  have hstep : ∀ j : ℕ, ((j : ℚ)) * step < ((j + 1 : ℕ) : ℚ) * step := by
    intro j
    have : ((j : ℚ)) < ((j + 1 : ℕ) : ℚ) := by push_cast; linarith
    exact mul_lt_mul_of_pos_right this hs
  rcases dl_split maxd step hs hm with ⟨he, hlt⟩ | ⟨he, hge⟩
  · rw [he] at hi ⊢
    rw [List.length_append] at hi
    simp at hi
    have hil : i < (arange 0 (maxd + 1) step).length := by omega
    rw [List.getD_append _ _ _ _ hil]
    by_cases hi2 : i + 1 < (arange 0 (maxd + 1) step).length
    · rw [List.getD_append _ _ _ _ hi2]
      have hc1 : i < (Int.ceil ((maxd + 1 - 0) / step)).toNat := by
        rw [arange_dl_length] at hil
        exact hil
      have hc2 : i + 1 < (Int.ceil ((maxd + 1 - 0) / step)).toNat := by
        rw [arange_dl_length] at hi2
        exact hi2
      rw [arange_getD _ _ _ _ hc1, arange_getD _ _ _ _ hc2, zero_add, zero_add]
      exact hstep i
    · have hieq : i + 1 = (arange 0 (maxd + 1) step).length := by omega
      have hright : (arange 0 (maxd + 1) step ++ [maxd]).getD (i + 1) 0 = maxd := by
        rw [List.getD_append_right _ _ _ _ (le_of_eq hieq.symm), hieq]
        simp
      rw [hright]
      have hc1 : i < (Int.ceil ((maxd + 1 - 0) / step)).toNat := by
        rw [arange_dl_length] at hil
        exact hil
      rw [arange_getD _ _ _ _ hc1, zero_add]
      have hieq2 : i = dlN maxd step - 1 := by
        rw [arange_dl_length] at hieq
        omega
      rw [hieq2]
      exact hlt
  · rw [he] at hi ⊢
    have hc1 : i < (Int.ceil ((maxd + 1 - 0) / step)).toNat := by
      rw [arange_dl_length] at hi
      unfold dlN at hi
      omega
    have hc2 : i + 1 < (Int.ceil ((maxd + 1 - 0) / step)).toNat := by
      rw [arange_dl_length] at hi
      unfold dlN at hi
      omega
    rw [arange_getD _ _ _ _ hc1, arange_getD _ _ _ _ hc2, zero_add, zero_add]
    exact hstep i

lemma ex_length (levels : List ℚ) :
    (extracted_sections levels).length = levels.length - 1 := by
  simp [extracted_sections]

lemma ex_getD (levels : List ℚ) (i : ℕ) (hi : i < levels.length - 1) :
    (extracted_sections levels).getD i (0, 0) =
      (levels.getD i 0, levels.getD (i + 1) 0) := by
  unfold extracted_sections
  rw [List.getD_eq_getElem?_getD, List.getElem?_map, List.getElem?_range hi]
  rfl

lemma dl_concrete_200_40 : depth_levels 200 40 = [0, 40, 80, 120, 160, 200] := by
  have h : arange 0 ((200 : ℚ) + 1) 40 = [0, 40, 80, 120, 160, 200] := by
    unfold arange
    rw [show (⌈(((200 : ℚ)) + 1 - 0) / 40⌉) = 6 from by rw [Int.ceil_eq_iff]; norm_num]
    rw [show (6 : ℤ).toNat = 6 from rfl]
    simp [List.range_succ]
    norm_num
  simp only [depth_levels, h]
  norm_num

/-- C4, amended: for positive interval and maximum depth such that no
integer multiple of the interval lies strictly between max_depth_cm and
max_depth_cm + 1, the generated depth-level sequence starts at 0, every
element but the last equals i * depth_interval_cm, the final element
equals max_depth_cm exactly, and consecutive elements strictly increase
(hence no duplicate arises when max_depth_cm is a multiple of the
interval). The second conjunct shows the proviso holds whenever the
interval and the maximum depth are both positive integers, as with the
defaults 40 and 200. Without the proviso, the
np.arange(0, max + 1, interval) call can overshoot max_depth_cm. -/
theorem claim_C4 :
    (∀ maxd step : ℚ, 0 < step → 0 < maxd →
      (∀ k : ℕ, (k : ℚ) * step ≤ maxd ∨ maxd + 1 ≤ (k : ℚ) * step) →
      (depth_levels maxd step).head? = some 0 ∧
      (∀ i : ℕ, i + 1 < (depth_levels maxd step).length →
        (depth_levels maxd step).getD i 0 = (i : ℚ) * step) ∧
      ((depth_levels maxd step).getLast?).getD 0 = maxd ∧
      (∀ i : ℕ, i + 1 < (depth_levels maxd step).length →
        (depth_levels maxd step).getD i 0 < (depth_levels maxd step).getD (i + 1) 0)) ∧
    (∀ a b : ℕ, 0 < a → 0 < b →
      ∀ k : ℕ, (k : ℚ) * (a : ℚ) ≤ (b : ℚ) ∨ (b : ℚ) + 1 ≤ (k : ℚ) * (a : ℚ)) := by
  constructor
  · intro maxd step hs hm H
    exact ⟨dl_head maxd step hs hm, dl_getD maxd step hs hm,
      dl_last_eq maxd step hs hm H, dl_adj maxd step hs hm⟩
  · intro a b ha hb k
    rcases le_or_lt (k * a) b with h | h
    · left
      exact_mod_cast h
    · right
      have h2 : b + 1 ≤ k * a := h
      exact_mod_cast h2

/-- C4, counterexample to the claim as stated: depth_interval_cm = 1/2 and
max_depth_cm = 2 are both positive, yet the generated sequence is
[0, 1/2, 1, 3/2, 2, 5/2]: its final element is 5/2, not max_depth_cm = 2,
because np.arange(0, max + 1, interval) runs up to max + 1 exclusive and
the final check only appends when the last element fell short. -/
theorem claim_C4_counterexample :
    (0 : ℚ) < 1 / 2 ∧ (0 : ℚ) < 2 ∧
    depth_levels 2 (1 / 2) = [0, 1 / 2, 1, 3 / 2, 2, 5 / 2] ∧
    ((depth_levels 2 (1 / 2)).getLast?).getD 0 ≠ 2 := by
  have h : arange 0 ((2 : ℚ) + 1) (1 / 2) = [0, 1 / 2, 1, 3 / 2, 2, 5 / 2] := by
    unfold arange
    norm_num
    rw [show (6 : ℤ).toNat = 6 from rfl]
    simp [List.range_succ]
    norm_num
  have hd : depth_levels 2 (1 / 2) = [0, 1 / 2, 1, 3 / 2, 2, 5 / 2] := by
    simp only [depth_levels, h]
    norm_num
  refine ⟨by norm_num, by norm_num, hd, ?_⟩
  rw [hd]
  norm_num

/-- C4, witness: at interval 40 and maximum depth 200 the amended theorem
applies and the sequence is exactly [0, 40, 80, 120, 160, 200]. -/
theorem claim_C4_witness :
    depth_levels 200 40 = [0, 40, 80, 120, 160, 200] ∧
    ((depth_levels 200 40).getLast?).getD 0 = 200 ∧
    (depth_levels 200 40).head? = some 0 := by
  have hH : ∀ k : ℕ, (k : ℚ) * 40 ≤ 200 ∨ (200 : ℚ) + 1 ≤ (k : ℚ) * 40 := by
    intro k
    rcases le_or_lt k 5 with h | h
    · left
      have hk : (k : ℚ) ≤ 5 := by exact_mod_cast h
      nlinarith
    · right
      have hk : (6 : ℚ) ≤ (k : ℚ) := by exact_mod_cast h
      nlinarith
  have h := claim_C4.1 200 40 (by norm_num) (by norm_num) hH
  exact ⟨dl_concrete_200_40, h.2.2.1, h.1⟩

/-- C9: for every positive interval and maximum depth the depth-level
sequence has at least two elements, begins at 0, ends at a value at least
max_depth_cm, and the band-extraction loop therefore produces at least one
band. -/
theorem claim_C9 (maxd step : ℚ) (hs : 0 < step) (hm : 0 < maxd) :
    2 ≤ (depth_levels maxd step).length ∧
    (depth_levels maxd step).head? = some 0 ∧
    maxd ≤ ((depth_levels maxd step).getLast?).getD 0 ∧
    1 ≤ (extracted_sections (depth_levels maxd step)).length := by
  refine ⟨dl_length maxd step hs hm, dl_head maxd step hs hm,
    dl_last_ge maxd step hs hm, ?_⟩
  rw [ex_length]
  have h := dl_length maxd step hs hm
  omega

/-- C9, witness at interval 40 and maximum depth 200. -/
theorem claim_C9_witness :
    2 ≤ (depth_levels 200 40).length ∧
    1 ≤ (extracted_sections (depth_levels 200 40)).length := by
  have h := claim_C9 200 40 (by norm_num) (by norm_num)
  exact ⟨h.1, h.2.2.2⟩

/-- C6: a depth-level sequence of length N yields exactly N - 1 band tags,
the i-th carrying start depth level_i and end depth level_(i+1); with
interval 40 cm and maximum depth 200 cm the five bands are
(0,40), (40,80), (80,120), (120,160), (160,200). -/
theorem claim_C6 :
    (∀ levels : List ℚ, (extracted_sections levels).length = levels.length - 1) ∧
    (∀ (levels : List ℚ) (i : ℕ), i < levels.length - 1 →
      (extracted_sections levels).getD i (0, 0) =
        (levels.getD i 0, levels.getD (i + 1) 0)) ∧
    extracted_sections (depth_levels 200 40) =
      [(0, 40), (40, 80), (80, 120), (120, 160), (160, 200)] := by
  refine ⟨ex_length, ex_getD, ?_⟩
  rw [dl_concrete_200_40]
  simp [extracted_sections, List.range_succ]

/-- C6, witness: the indexed-tag equation of C6 instantiated at the
concrete three-level list [0, 40, 80] and band index 1. -/
theorem claim_C6_witness :
    (1 : ℕ) < ([0, 40, 80] : List ℚ).length - 1 ∧
    (extracted_sections [0, 40, 80]).getD 1 (0, 0) =
      (([0, 40, 80] : List ℚ).getD 1 0, ([0, 40, 80] : List ℚ).getD 2 0) :=
  ⟨by norm_num, claim_C6.2.1 [0, 40, 80] 1 (by norm_num)⟩

/-- Model of np.linspace(start, stop, num) with the default inclusive
endpoint: start + (stop - start) * i / (num - 1) for 0 ≤ i < num. -/
noncomputable def linspace (start stop : ℝ) (num : ℕ) : List ℝ :=
  (List.range num).map (fun (i : ℕ) => start + (stop - start) * (i : ℝ) / ((num : ℝ) - 1))

/-- Model of np.radians. -/
noncomputable def radians (deg : ℝ) : ℝ := deg * Real.pi / 180

/-- Horizontal sample positions along the unwrapped cylinder (source line
199): np.linspace(0, img_width, 1000). -/
noncomputable def x_positions (img_width : ℝ) : List ℝ := linspace 0 img_width 1000

/-- Angular position of a pixel column (source line 200):
theta = x / img_width * 2 * pi. -/
noncomputable def theta_of (img_width x : ℝ) : ℝ := x / img_width * (2 * Real.pi)

/-- Vertical offset due to depth (source line 203):
depth_cm / sin(asscent_angle_rad). -/
noncomputable def depth_offset (depth_cm angle_rad : ℝ) : ℝ :=
  depth_cm / Real.sin angle_rad

/-- Sinusoidal variation around the cylinder (source lines 206-208):
cylinder_radius_cm * cos(theta) / tan(asscent_angle_rad). -/
noncomputable def angle_variation (radius_cm angle_rad th : ℝ) : ℝ :=
  radius_cm * Real.cos th / Real.tan angle_rad

/-- One projection curve (source lines 197-217): the zipped point list
(x_px, y_px) with y_positions = depth_offset + angle_variation and
y_px = img_height - y_positions * pixels_per_cm_y. -/
noncomputable def projection_curve
    (depth_cm radius_cm angle_rad img_width img_height ppcm_y : ℝ) : List (ℝ × ℝ) :=
  let xs := x_positions img_width
  let thetas := xs.map (theta_of img_width)
  let ys := thetas.map
    (fun th => depth_offset depth_cm angle_rad + angle_variation radius_cm angle_rad th)
  let y_pxs := ys.map (fun y => img_height - y * ppcm_y)
  xs.zip y_pxs

/-- Written from the specification's words, for refinement comparison:
y_physical(x) = d / sin(angle_rad) + radius_cm * cos(theta) / tan(angle_rad). -/
noncomputable def spec_y_physical (d angle_rad radius_cm th : ℝ) : ℝ :=
  d / Real.sin angle_rad + radius_cm * Real.cos th / Real.tan angle_rad

lemma map_range_getD {α : Type} (f : ℕ → α) (n i : ℕ) (d : α) (hi : i < n) :
    ((List.range n).map f).getD i d = f i := by
  rw [List.getD_eq_getElem?_getD, List.getElem?_map, List.getElem?_range hi]
  rfl

lemma curve_eq (d r a w h p : ℝ) :
    projection_curve d r a w h p =
      (List.range 1000).map (fun (i : ℕ) =>
        (0 + (w - 0) * (i : ℝ) / (((1000 : ℕ) : ℝ) - 1),
          h - (depth_offset d a +
            angle_variation r a
              (theta_of w (0 + (w - 0) * (i : ℝ) / (((1000 : ℕ) : ℝ) - 1)))) * p)) := by
  unfold projection_curve x_positions linspace
  simp only [List.map_map]
  rw [List.zip_map']
  simp [Function.comp]

lemma curve_length (d r a w h p : ℝ) :
    (projection_curve d r a w h p).length = 1000 := by
  rw [curve_eq]
  simp

lemma curve_getD (d r a w h p : ℝ) (i : ℕ) (hi : i < 1000) :
    (projection_curve d r a w h p).getD i (0, 0) =
      (w * (i : ℝ) / 999,
        h - (depth_offset d a +
          angle_variation r a (theta_of w (w * (i : ℝ) / 999))) * p) := by
  rw [curve_eq, map_range_getD _ _ _ _ hi]
  have hx : 0 + (w - 0) * (i : ℝ) / (((1000 : ℕ) : ℝ) - 1) = w * (i : ℝ) / 999 := by
    norm_num
  rw [hx]

lemma curve_y_diff (d1 d2 r a w h p : ℝ) (i : ℕ) (hi : i < 1000) :
    ((projection_curve d1 r a w h p).getD i (0, 0)).2 -
      ((projection_curve d2 r a w h p).getD i (0, 0)).2 =
      (d2 - d1) / Real.sin a * p := by
  rw [curve_getD d1 r a w h p i hi, curve_getD d2 r a w h p i hi]
  unfold depth_offset angle_variation
  ring

lemma sin_radians_pos (angle_deg : ℝ) (h1 : 0 < angle_deg) (h2 : angle_deg < 90) :
    0 < Real.sin (radians angle_deg) := by
  apply Real.sin_pos_of_pos_of_lt_pi
  · unfold radians
    have hπ := Real.pi_pos
    positivity
  · unfold radians
    have hπ := Real.pi_pos
    nlinarith

/-- C1: for every depth level d and valid calibration, the curve generator
samples 1000 x positions uniformly over [0, pixel_width]
(x_i = pixel_width * i / 999), maps each to theta = x / pixel_width * 2π,
computes y_physical(x) = d / sin(angle_rad) + radius_cm * cos(theta) /
tan(angle_rad), and returns the point sequence
(x, pixel_height - y_physical(x) * px_per_cm_y). -/
theorem claim_C1 (angle_deg d diam w h p : ℝ)
    (h1 : 0 < angle_deg) (h2 : angle_deg < 90) (h3 : 0 < diam)
    (h4 : 0 < w) (h5 : 0 < h) :
    (projection_curve d (diam / 2) (radians angle_deg) w h p).length = 1000 ∧
    ∀ i : ℕ, i < 1000 →
      (projection_curve d (diam / 2) (radians angle_deg) w h p).getD i (0, 0) =
        (w * (i : ℝ) / 999,
          h - spec_y_physical d (radians angle_deg) (diam / 2)
              (w * (i : ℝ) / 999 / w * (2 * Real.pi)) * p) := by
  refine ⟨curve_length _ _ _ _ _ _, ?_⟩
  intro i hi
  rw [curve_getD _ _ _ _ _ _ i hi]
  unfold spec_y_physical depth_offset angle_variation theta_of
  rfl

/-- C1, witness at the end-to-end scenario of the specification: angle 45,
diameter 10, a 1000 x 2000 canvas, px_per_cm_y = 500/9 and depth 40. -/
theorem claim_C1_witness :
    ((0 : ℝ) < 45 ∧ (45 : ℝ) < 90 ∧ (0 : ℝ) < 10 ∧ (0 : ℝ) < 1000 ∧ (0 : ℝ) < 2000) ∧
    (projection_curve 40 (10 / 2) (radians 45) 1000 2000 (500 / 9)).length = 1000 :=
  ⟨⟨by norm_num, by norm_num, by norm_num, by norm_num, by norm_num⟩,
    (claim_C1 45 40 10 1000 2000 (500 / 9) (by norm_num) (by norm_num) (by norm_num)
      (by norm_num) (by norm_num)).1⟩

/-- C2: for any two depth levels the difference of physical y offsets is
the constant (d2 - d1) / sin(angle_rad), independent of the sampled
column; consequently the pixel curves for d1 and d2 share x coordinates
and differ by the constant vertical shift (d2 - d1) / sin(angle_rad) *
px_per_cm_y at every sample. -/
theorem claim_C2 (angle_deg d1 d2 radius w h p : ℝ)
    (h1 : 0 < angle_deg) (h2 : angle_deg < 90) (hd : d1 ≠ d2) :
    (∀ th : ℝ,
      (depth_offset d2 (radians angle_deg) +
          angle_variation radius (radians angle_deg) th) -
        (depth_offset d1 (radians angle_deg) +
          angle_variation radius (radians angle_deg) th) =
        (d2 - d1) / Real.sin (radians angle_deg)) ∧
    (∀ i : ℕ, i < 1000 →
      ((projection_curve d2 radius (radians angle_deg) w h p).getD i (0, 0)).1 =
        ((projection_curve d1 radius (radians angle_deg) w h p).getD i (0, 0)).1 ∧
      ((projection_curve d1 radius (radians angle_deg) w h p).getD i (0, 0)).2 -
        ((projection_curve d2 radius (radians angle_deg) w h p).getD i (0, 0)).2 =
        (d2 - d1) / Real.sin (radians angle_deg) * p) := by
  constructor
  · intro th
    unfold depth_offset angle_variation
    ring
  · intro i hi
    refine ⟨?_, curve_y_diff d1 d2 radius (radians angle_deg) w h p i hi⟩
    rw [curve_getD _ _ _ _ _ _ i hi, curve_getD _ _ _ _ _ _ i hi]

/-- C2, witness: depths 0 and 40 at angle 45, radius 5, on the end-to-end
scenario canvas, evaluated at column angle 0 and at sample 0. -/
theorem claim_C2_witness :
    ((0 : ℝ) < 45 ∧ (45 : ℝ) < 90 ∧ (0 : ℝ) ≠ 40) ∧
    (depth_offset 40 (radians 45) + angle_variation 5 (radians 45) 0) -
      (depth_offset 0 (radians 45) + angle_variation 5 (radians 45) 0) =
      (40 - 0) / Real.sin (radians 45) :=
  ⟨⟨by norm_num, by norm_num, by norm_num⟩,
    (claim_C2 45 0 40 5 1000 2000 (500 / 9) (by norm_num) (by norm_num)
      (by norm_num)).1 0⟩

/-- C3, amended: in the pixel frame the curves are drawn in
(y_px = img_height - y_physical * px_per_cm_y, before the final vertical
flip), the curve of the shallower depth has the larger y_px: for every
valid calibration and adjacent pair with d1 < d2, the deeper curve's y_px
is less than or equal to the shallower curve's y_px at every sampled x.
The claim's stated inequality (shallower y_px ≤ deeper y_px) is reversed. -/
theorem claim_C3 (angle_deg d1 d2 r w h p : ℝ)
    (h1 : 0 < angle_deg) (h2 : angle_deg < 90) (hd : d1 < d2) (hp : 0 < p) :
    ∀ i : ℕ, i < 1000 →
      ((projection_curve d2 r (radians angle_deg) w h p).getD i (0, 0)).2 ≤
        ((projection_curve d1 r (radians angle_deg) w h p).getD i (0, 0)).2 := by
  intro i hi
  have hdiff := curve_y_diff d1 d2 r (radians angle_deg) w h p i hi
  have hs := sin_radians_pos angle_deg h1 h2
  have hpos : 0 < (d2 - d1) / Real.sin (radians angle_deg) * p :=
    mul_pos (div_pos (by linarith) hs) hp
  linarith

/-- C3, counterexample to the claim as stated: at angle 45, radius 5,
canvas 1000 x 2000, px_per_cm_y = 500/9, sample 0, the shallower (upper)
curve for depth 0 has y_px strictly greater than the deeper (lower) curve
for depth 40, so upper y_px ≤ lower y_px fails. -/
theorem claim_C3_counterexample :
    ¬ (((projection_curve 0 5 (radians 45) 1000 2000 (500 / 9)).getD 0 (0, 0)).2 ≤
        ((projection_curve 40 5 (radians 45) 1000 2000 (500 / 9)).getD 0 (0, 0)).2) := by
  have hdiff := curve_y_diff 40 0 5 (radians 45) 1000 2000 (500 / 9) 0 (by norm_num)
  have hs : 0 < Real.sin (radians 45) := sin_radians_pos 45 (by norm_num) (by norm_num)
  have hneg : ((0 : ℝ) - 40) / Real.sin (radians 45) * (500 / 9) < 0 := by
    apply mul_neg_of_neg_of_pos
    · exact div_neg_of_neg_of_pos (by norm_num) hs
    · norm_num
  intro hle
  linarith

/-- C3, witness for the amended theorem: depths 0 and 40 at angle 45 on
the end-to-end scenario canvas, sample 0. -/
theorem claim_C3_witness :
    ((0 : ℝ) < 45 ∧ (45 : ℝ) < 90 ∧ (0 : ℝ) < 40 ∧ (0 : ℝ) < 500 / 9) ∧
    ((projection_curve 40 5 (radians 45) 1000 2000 (500 / 9)).getD 0 (0, 0)).2 ≤
      ((projection_curve 0 5 (radians 45) 1000 2000 (500 / 9)).getD 0 (0, 0)).2 :=
  ⟨⟨by norm_num, by norm_num, by norm_num, by norm_num⟩,
    claim_C3 45 0 40 5 1000 2000 (500 / 9) (by norm_num) (by norm_num) (by norm_num)
      (by norm_num) 0 (by norm_num)⟩

/-- PIL Image.rotate(90, expand=True) on an exact quarter turn swaps the
pixel dimensions: a width x height canvas becomes height x width
(source line 150). -/
def rotate90_size (w h : ℕ) : ℕ × ℕ := (h, w)

/-- Calibration quantities computed by map_soil_depths_to_image (source
lines 149-165), all derived after the 90-degree rotation. -/
structure Calib where
  cylinder_angle_deg : ℚ
  img_width : ℕ
  img_height : ℕ
  image_height_cm : ℚ
  pixels_per_cm_x : ℚ
  pixels_per_cm_y : ℚ
  cylinder_radius_cm : ℚ
  deriving DecidableEq

/-- Calibration phase of map_soil_depths_to_image (source lines 149-165):
rotate, read the rotated size, derive the physical height from the rotated
aspect ratio when none is supplied, and form the conversion factors and
the cylinder radius. -/
def calibrate (orig_w orig_h : ℕ) (cylinder_angle_deg cylinder_diameter_cm : ℚ)
    (image_height_cm? : Option ℚ) (image_width_cm : ℚ) : Calib :=
  let img_width := (rotate90_size orig_w orig_h).1
  let img_height := (rotate90_size orig_w orig_h).2
  let image_height_cm :=
    match image_height_cm? with
    | none => image_width_cm * ((img_height : ℚ) / (img_width : ℚ))
    | some v => v
  { cylinder_angle_deg := cylinder_angle_deg
    img_width := img_width
    img_height := img_height
    image_height_cm := image_height_cm
    pixels_per_cm_x := (img_width : ℚ) / image_width_cm
    pixels_per_cm_y := (img_height : ℚ) / image_height_cm
    cylinder_radius_cm := cylinder_diameter_cm / 2 }

/-- Error vocabulary of the calibration and loading phases. The
specification's section 7 names ConfigurationError and NoInputError; the
source module defines no exception classes of its own: combine_tube_images
raises a bare ValueError for the no-input case, and the calibration phase
contains no raise statement, so its only failure mode is Python's
ZeroDivisionError from a zero denominator. -/
inductive PipelineError where
  | configurationError (message : String)
  | noInputError (message : String)
  | zeroDivisionError (message : String)
  deriving DecidableEq

/-- Effective physical image height of source lines 154-156: the supplied
image_height_cm when given, else image_width_cm times the rotated aspect
ratio img_height / img_width. -/
def derived_height_cm (orig_w orig_h : ℕ) (image_height_cm? : Option ℚ)
    (image_width_cm : ℚ) : ℚ :=
  match image_height_cm? with
  | none => image_width_cm *
      (((rotate90_size orig_w orig_h).2 : ℚ) / ((rotate90_size orig_w orig_h).1 : ℚ))
  | some v => v

/-- Calibration phase of map_soil_depths_to_image (source lines 149-165)
as a fallible computation. The source performs no validation of its own,
but Python raises ZeroDivisionError at a zero denominator, in source
order: line 155 (img_height / img_width, only when the physical height
must be derived and the rotated pixel width is 0), line 159
(img_width / image_width_cm, when image_width_cm is 0), and line 160
(img_height / image_height_cm, when the effective physical height is 0).
No other input makes the phase fail, and no ConfigurationError exists in
the source. -/
def calibrate_checked (orig_w orig_h : ℕ) (cylinder_angle_deg cylinder_diameter_cm : ℚ)
    (image_height_cm? : Option ℚ) (image_width_cm : ℚ) : Except PipelineError Calib :=
  if image_height_cm? = none ∧ (rotate90_size orig_w orig_h).1 = 0 then
    Except.error (PipelineError.zeroDivisionError "division by zero")
  else if image_width_cm = 0 then
    Except.error (PipelineError.zeroDivisionError "float division by zero")
  else if derived_height_cm orig_w orig_h image_height_cm? image_width_cm = 0 then
    Except.error (PipelineError.zeroDivisionError "float division by zero")
  else
    Except.ok (calibrate orig_w orig_h cylinder_angle_deg cylinder_diameter_cm
      image_height_cm? image_width_cm)

/-- C8: the source image is rotated 90 degrees (with canvas expansion)
before any calibration, so the calibration works on swapped dimensions:
pixels_per_cm_x equals the ORIGINAL pixel height divided by
image_width_cm, and a missing physical height is derived from the rotated
(swapped) aspect ratio. -/
theorem claim_C8 (orig_w orig_h : ℕ) (angle diam wcm : ℚ) :
    (calibrate orig_w orig_h angle diam none wcm).img_width = orig_h ∧
    (calibrate orig_w orig_h angle diam none wcm).img_height = orig_w ∧
    (∀ hcm? : Option ℚ,
      (calibrate orig_w orig_h angle diam hcm? wcm).pixels_per_cm_x =
        (orig_h : ℚ) / wcm) ∧
    (calibrate orig_w orig_h angle diam none wcm).image_height_cm =
      wcm * ((orig_w : ℚ) / (orig_h : ℚ)) ∧
    (calibrate orig_w orig_h angle diam none wcm).pixels_per_cm_y =
      (orig_w : ℚ) / (wcm * ((orig_w : ℚ) / (orig_h : ℚ))) := by
  refine ⟨rfl, rfl, ?_, rfl, rfl⟩
  intro hcm?
  cases hcm? <;> rfl

/-- C5, amended: the calibration phase never raises a ConfigurationError
for any parameters; its only failures are Python ZeroDivisionErrors,
occurring exactly when image_width_cm is 0, when the effective
image_height_cm is 0, or when the physical height must be derived and the
rotated pixel width is 0. In particular the tilt angle (including 0, 90,
-5, 95 and 44.999) and negative dimensions never cause a calibration-time
error; out-of-range angles flow into the later trigonometric computation
instead of failing fast. -/
theorem claim_C5 (orig_w orig_h : ℕ) (angle diam wcm : ℚ) (hcm? : Option ℚ) :
    (∀ msg : String, calibrate_checked orig_w orig_h angle diam hcm? wcm ≠
      Except.error (PipelineError.configurationError msg)) ∧
    ((calibrate_checked orig_w orig_h angle diam hcm? wcm).isOk = true ↔
      ¬ ((hcm? = none ∧ (rotate90_size orig_w orig_h).1 = 0) ∨ wcm = 0 ∨
        derived_height_cm orig_w orig_h hcm? wcm = 0)) := by
  unfold calibrate_checked
  constructor
  · intro msg
    split_ifs <;> simp
  · split_ifs with h1 h2 h3 <;> simp [Except.isOk] <;> tauto

/-- C5, witness: the characterization applied at tilt angle 44.999 on the
end-to-end scenario image, where calibration indeed succeeds. -/
theorem claim_C5_witness :
    (calibrate_checked 2000 1000 (44999 / 1000) 10 none 18).isOk = true := by
  rw [(claim_C5 2000 1000 (44999 / 1000) 10 18 none).2]
  norm_num [derived_height_cm, rotate90_size]

/-- C5, counterexample to the claim as stated: the boundary tilt angles 0,
90, -5 and 95, which the claim says raise ConfigurationError at
calibration time, all calibrate successfully on the end-to-end scenario
image (2000 x 1000 pixels, width 18 cm, diameter 10 cm), and so does the
negative physical width -18 cm although the claim says any dimension ≤ 0
raises. -/
theorem claim_C5_counterexample :
    (calibrate_checked 2000 1000 0 10 none 18).isOk = true ∧
    (calibrate_checked 2000 1000 90 10 none 18).isOk = true ∧
    (calibrate_checked 2000 1000 (-5) 10 none 18).isOk = true ∧
    (calibrate_checked 2000 1000 95 10 none 18).isOk = true ∧
    (calibrate_checked 2000 1000 45 10 none (-18)).isOk = true := by
  norm_num [calibrate_checked, derived_height_cm, rotate90_size, Except.isOk,
    Except.toBool]

/-- Longest run of decimal digits at the head of a character list: the
greedy capture of the regex group (\d+). -/
def leadingDigits (cs : List Char) : List Char := cs.takeWhile Char.isDigit

/-- Integer value of a decimal digit string, as Python's int() on the
captured group. -/
def natOfDigits (ds : List Char) : ℕ := ds.foldl (fun n c => 10 * n + (c.toNat - 48)) 0

/-- Leftmost match of the regex L(\d+) (source line 39): scan left to
right for an 'L' immediately followed by at least one digit and return
the value of the maximal digit run after it. -/
def lMatch : List Char → Option ℕ
  | [] => none
  | c :: rest =>
    if c = 'L' ∧ (leadingDigits rest).isEmpty = false then
      some (natOfDigits (leadingDigits rest))
    else lMatch rest

/-- os.path.basename on a slash-separated path: the characters after the
last '/'. -/
def basename (cs : List Char) : List Char :=
  (cs.reverse.takeWhile (fun c => c ≠ '/')).reverse

/-- extract_position (source lines 38-42): the integer of the first
"L digits" marker in the basename, or the default 0 when the pattern is
not found. -/
def extract_position (filename : List Char) : ℕ := (lMatch (basename filename)).getD 0

/-- A character list contains an 'L' immediately followed by a digit. -/
def hasMarker (cs : List Char) : Prop :=
  ∃ l c r, cs = l ++ 'L' :: c :: r ∧ c.isDigit = true

lemma hasMarker_cons (a : Char) (t : List Char) (h : hasMarker t) :
    hasMarker (a :: t) := by
  obtain ⟨l, c, r, he, hd⟩ := h
  exact ⟨a :: l, c, r, by rw [he]; rfl, hd⟩

lemma leadingDigits_ne_head (q : Char) (t : List Char)
    (h : (leadingDigits (q :: t)).isEmpty = false) : q.isDigit = true := by
  unfold leadingDigits at h
  rw [List.takeWhile_cons] at h
  by_cases hq : q.isDigit = true
  · exact hq
  · rw [if_neg hq] at h
    simp at h

lemma lMatch_none (cs : List Char) (h : ¬ hasMarker cs) : lMatch cs = none := by
  induction cs with
  | nil => rfl
  | cons a t ih =>
    simp only [lMatch]
    by_cases hcond : a = 'L' ∧ (leadingDigits t).isEmpty = false
    · exfalso
      obtain ⟨ha, hne⟩ := hcond
      cases t with
      | nil => simp [leadingDigits] at hne
      | cons q t2 =>
        have hq := leadingDigits_ne_head q t2 hne
        exact h ⟨[], q, t2, by simp [ha], hq⟩
    · rw [if_neg hcond]
      exact ih (fun hm => h (hasMarker_cons a t hm))

lemma leadingDigits_of_digits : ∀ (ds suf : List Char),
    (∀ c ∈ ds, c.isDigit = true) →
    (suf = [] ∨ ∃ q t, suf = q :: t ∧ q.isDigit = false) →
    leadingDigits (ds ++ suf) = ds
  | [], suf, _, hsuf => by
    simp only [List.nil_append]
    rcases hsuf with h | ⟨q, t, he, hq⟩
    · rw [h]; rfl
    · rw [he]
      unfold leadingDigits
      rw [List.takeWhile_cons, if_neg (by simp [hq])]
  | d :: ds2, suf, hds, hsuf => by
    have hd : d.isDigit = true := hds d (by simp)
    unfold leadingDigits
    rw [List.cons_append, List.takeWhile_cons, if_pos hd]
    have ih := leadingDigits_of_digits ds2 suf (fun c hc => hds c (by simp [hc])) hsuf
    unfold leadingDigits at ih
    rw [ih]

lemma lMatch_found : ∀ (pre ds suf : List Char), ds ≠ [] →
    (∀ c ∈ ds, c.isDigit = true) →
    (suf = [] ∨ ∃ q t, suf = q :: t ∧ q.isDigit = false) →
    ¬ hasMarker pre →
    lMatch (pre ++ 'L' :: (ds ++ suf)) = some (natOfDigits ds)
  | [], ds, suf, hne, hds, hsuf, _ => by
    simp only [List.nil_append, lMatch, List.append_eq]
    have ht : leadingDigits (ds ++ suf) = ds := leadingDigits_of_digits ds suf hds hsuf
    have hEmpty : (leadingDigits (ds ++ suf)).isEmpty = false := by
      rw [ht]
      cases ds with
      | nil => exact absurd rfl hne
      | cons a b => rfl
    rw [if_pos (⟨trivial, hEmpty⟩ :
      True ∧ (leadingDigits (ds ++ suf)).isEmpty = false), ht]
  | p :: pre2, ds, suf, hne, hds, hsuf, hpre => by
    simp only [List.cons_append, lMatch, List.append_eq]
    have hcond : ¬ (p = 'L' ∧
        (leadingDigits (pre2 ++ 'L' :: (ds ++ suf))).isEmpty = false) := by
      rintro ⟨hp, hne2⟩
      cases pre2 with
      | nil =>
        rw [List.nil_append] at hne2
        have hLd : leadingDigits ('L' :: (ds ++ suf)) = [] := by
          unfold leadingDigits
          rw [List.takeWhile_cons, if_neg (by decide)]
        rw [hLd] at hne2
        simp at hne2
      | cons a pre3 =>
        rw [List.cons_append] at hne2
        have ha := leadingDigits_ne_head a (pre3 ++ 'L' :: (ds ++ suf)) hne2
        exact hpre ⟨[], a, pre3, by simp [hp], ha⟩
    rw [if_neg hcond]
    exact lMatch_found pre2 ds suf hne hds hsuf
      (fun hm => hpre (hasMarker_cons p pre2 hm))

/-- C10: the position key of a basename whose first "L digits" marker has
digit run ds is int(ds); a filename whose basename has no such marker gets
key 0 rather than an error; hence markerless filenames sort before or tied
with all position-indexed ones and the comparison is total over any input
list. Concretely, "scans/tube_L012.png" has key 12 and
"scans/tube_final.png" has key 0. -/
theorem claim_C10 :
    (∀ f pre ds suf : List Char,
      basename f = pre ++ 'L' :: (ds ++ suf) → ds ≠ [] →
      (∀ c ∈ ds, c.isDigit = true) →
      (suf = [] ∨ ∃ q t, suf = q :: t ∧ q.isDigit = false) →
      ¬ hasMarker pre →
      extract_position f = natOfDigits ds) ∧
    (∀ f : List Char, ¬ hasMarker (basename f) → extract_position f = 0) ∧
    (∀ f g : List Char, extract_position f ≤ extract_position g ∨
      extract_position g ≤ extract_position f) ∧
    (∀ f g : List Char, ¬ hasMarker (basename f) →
      extract_position f ≤ extract_position g) ∧
    extract_position ("scans/tube_L012.png".toList) = 12 ∧
    extract_position ("scans/tube_final.png".toList) = 0 := by
  refine ⟨?_, ?_, ?_, ?_, by decide, by decide⟩
  · intro f pre ds suf hbase hne hds hsuf hpre
    unfold extract_position
    rw [hbase, lMatch_found pre ds suf hne hds hsuf hpre]
    rfl
  · intro f h
    unfold extract_position
    rw [lMatch_none _ h]
    rfl
  · exact fun f g => Nat.le_total _ _
  · intro f g h
    unfold extract_position
    rw [lMatch_none _ h]
    exact Nat.zero_le _

lemma marker_lMatch_isSome (cs : List Char) (h : hasMarker cs) :
    (lMatch cs).isSome = true := by
  induction cs with
  | nil =>
    obtain ⟨l, c, r, he, _⟩ := h
    cases l <;> simp at he
  | cons a t ih =>
    simp only [lMatch]
    by_cases hcond : a = 'L' ∧ (leadingDigits t).isEmpty = false
    · rw [if_pos hcond]
      rfl
    · rw [if_neg hcond]
      apply ih
      obtain ⟨l, c, r, he, hd⟩ := h
      cases l with
      | nil =>
        exfalso
        apply hcond
        rw [List.nil_append] at he
        injection he with h1 h2
        refine ⟨h1, ?_⟩
        rw [h2]
        unfold leadingDigits
        rw [List.takeWhile_cons, if_pos hd]
        rfl
      | cons x xs =>
        rw [List.cons_append] at he
        injection he with h1 h2
        exact ⟨xs, c, r, h2, hd⟩

/-- C10, witness: the marker equation applied to the concrete filename
"a_L034.png" (basename itself, marker after "a_", digit run "034",
trailing ".png"), giving key 34. -/
theorem claim_C10_witness :
    extract_position ("a_L034.png".toList) = natOfDigits ("034".toList) :=
  claim_C10.1 ("a_L034.png".toList) ("a_".toList) ("034".toList) (".png".toList)
    (by decide) (by decide) (by decide)
    (Or.inr ⟨'.', "png".toList, by decide, by decide⟩)
    (fun hm => by
      have h2 := marker_lMatch_isSome ("a_".toList) hm
      revert h2
      decide)

/-- Segment-loading head of combine_tube_images (source lines 32-44): the
glob result is the input list; an empty match list raises (modelled as the
error branch, carrying the source's message), otherwise the files are
sorted by extract_position and returned. -/
def load_segments (pattern input_dir : String) (image_files : List (List Char)) :
    Except PipelineError (List (List Char)) :=
  if image_files.isEmpty then
    Except.error (PipelineError.noInputError
      ("No images found matching pattern " ++ pattern ++ " in " ++ input_dir))
  else
    Except.ok (image_files.mergeSort
      (fun a b => decide (extract_position a ≤ extract_position b)))

/-- C7: the segment loader errors exactly on an empty match list (and then
returns no file list at all), and on a nonempty match list returns an
ordered permutation of the input, sorted by the extracted position key. -/
theorem claim_C7 (pattern input_dir : String) :
    (load_segments pattern input_dir [] =
      Except.error (PipelineError.noInputError
        ("No images found matching pattern " ++ pattern ++ " in " ++ input_dir))) ∧
    (∀ files : List (List Char), files ≠ [] →
      ∃ l, load_segments pattern input_dir files = Except.ok l ∧
        l.Perm files ∧
        l.Pairwise (fun a b => extract_position a ≤ extract_position b)) := by
  constructor
  · rfl
  · intro files hne
    refine ⟨files.mergeSort
      (fun a b => decide (extract_position a ≤ extract_position b)), ?_, ?_, ?_⟩
    · unfold load_segments
      rw [if_neg (by simpa using hne)]
    · exact List.mergeSort_perm files _
    · have htrans : ∀ a b c : List Char,
          decide (extract_position a ≤ extract_position b) = true →
          decide (extract_position b ≤ extract_position c) = true →
          decide (extract_position a ≤ extract_position c) = true := by
        intro a b c hab hbc
        simp only [decide_eq_true_eq] at hab hbc ⊢
        exact le_trans hab hbc
      have htotal : ∀ a b : List Char,
          (decide (extract_position a ≤ extract_position b) ||
            decide (extract_position b ≤ extract_position a)) = true := by
        intro a b
        simpa using Nat.le_total (extract_position a) (extract_position b)
      have h := List.sorted_mergeSort htrans htotal files
      exact h.imp (fun hab => by simpa using hab)

/-- C7, witness: two concrete segment filenames load successfully and come
back as a position-sorted permutation. -/
theorem claim_C7_witness :
    (["b_L002.png".toList, "a_L001.png".toList] : List (List Char)) ≠ [] ∧
    ∃ l, load_segments "*L???*.png" "tube_dir"
        ["b_L002.png".toList, "a_L001.png".toList] = Except.ok l ∧
      l.Perm ["b_L002.png".toList, "a_L001.png".toList] ∧
      l.Pairwise (fun a b => extract_position a ≤ extract_position b) :=
  ⟨by simp, (claim_C7 "*L???*.png" "tube_dir").2
    ["b_L002.png".toList, "a_L001.png".toList] (by simp)⟩

end CID
